import Mathlib

/-!
Shallow embedding of the restaurant point-of-sale application (`src/main.py`).

The persisted SQLite store (`dishes.db`) is modelled as a `DB` value holding
the three tables as lists of rows in insertion (rowid) order, together with
the `AUTOINCREMENT` sequence counter of each table.  Each method of
`DatabaseManager` becomes a pure function on `DB`; `datetime.now()` becomes
an explicit `order_date : String` argument (ISO-8601 strings compare
lexicographically).  `REAL` columns are modelled as `ℚ`, `INTEGER` as `ℕ`,
`TEXT` as `String`.  The in-memory selection layer (`MainWindow.update_total`,
`confirm_order`, the checkbox handler) is embedded over the loaded dish list.
The CSV export is modelled down to the level of rows of raw cells: Python's
`csv.writer.writerows` receives the raw history tuples, so each written row
is the tuple of unformatted values (the byte-level serialization of a cell
is the csv library's concern and is not re-modelled here).
-/

namespace Resto

/-- A row of the `dishes` table (`id, name, price, image_path`). -/
structure DishRow where
  id : Nat
  name : String
  price : ℚ
  image_path : String
deriving DecidableEq

/-- The `Dish` dataclass of `main.py`: a catalog row plus the transient
UI-only `selected` flag (default `False`). -/
structure Dish where
  id : Nat
  name : String
  price : ℚ
  image_path : String
  selected : Bool := false
deriving DecidableEq

/-- A row of the `orders` table (`id, total_amount, order_date`). -/
structure OrderRow where
  id : Nat
  total_amount : ℚ
  order_date : String
deriving DecidableEq

/-- A row of the `order_details` table (`id, order_id, dish_id, quantity`). -/
structure OrderDetailRow where
  id : Nat
  order_id : Nat
  dish_id : Nat
  quantity : Nat
deriving DecidableEq

/-- The state of the SQLite store: the three tables in insertion (rowid)
order plus each table's `AUTOINCREMENT` next-id counter. -/
structure DB where
  dishes : List DishRow
  orders : List OrderRow
  order_details : List OrderDetailRow
  dishSeq : Nat
  orderSeq : Nat
  detailSeq : Nat
deriving DecidableEq

/-- A store whose three tables have just been created: all empty, rowids
start at 1. -/
def emptyDB : DB := ⟨[], [], [], 1, 1, 1⟩

/-- One `INSERT INTO dishes (name, price, image_path) VALUES (?, ?, ?)`:
appends the row with the next auto-assigned id and returns `lastrowid`. -/
def insertDishRow (db : DB) (name : String) (price : ℚ) (image_path : String) :
    DB × Nat :=
  let did := db.dishSeq
  ({ db with dishes := db.dishes ++ [⟨did, name, price, image_path⟩],
             dishSeq := did + 1 }, did)

/-- The fixed seed list of `init_database` (name, price, image path). -/
def sample_dishes : List (String × ℚ × String) :=
  [("Паста Карбонара", 12.99, "images/pasta.jpg"),
   ("Пицца Маргарита", 15.50, "images/pizza.jpg"),
   ("Салат Цезарь", 8.75, "images/salad.jpg"),
   ("Стейк Рибай", 25.99, "images/steak.jpg"),
   ("Суши Калифорния", 18.25, "images/sushi.jpg"),
   ("Борщ", 7.50, "images/borscht.jpg"),
   ("Пельмени", 10.25, "images/dumplings.jpg")]

/-- The `executemany` seeding insert of `init_database`. -/
def seedSamples (db : DB) : DB :=
  sample_dishes.foldl (fun d s => (insertDishRow d s.1 s.2.1 s.2.2).1) db

/-- `DatabaseManager.init_database`: `none` models an absent store file.
`CREATE TABLE IF NOT EXISTS` yields the empty tables when the store is
absent and is a no-op otherwise; then, exactly when
`SELECT COUNT(*) FROM dishes` returns 0, the sample dishes are inserted. -/
def init_database (store : Option DB) : DB :=
  let db := store.getD emptyDB
  if db.dishes.isEmpty then seedSamples db else db

/-- `DatabaseManager.get_all_dishes`: `SELECT id, name, price, image_path
FROM dishes` (rowid scan order), each row wrapped as `Dish(*row)` whose
`selected` flag takes its dataclass default `False`. -/
def get_all_dishes (db : DB) : List Dish :=
  db.dishes.map (fun r =>
    { id := r.id, name := r.name, price := r.price,
      image_path := r.image_path, selected := false })

/-- `DatabaseManager.save_order`: inserts one `orders` row carrying the
supplied total and the supplied timestamp, then one `order_details` row per
input dish with quantity 1 referencing `lastrowid`, and returns that id. -/
def save_order (db : DB) (selected_dishes : List Dish) (total_amount : ℚ)
    (order_date : String) : DB × Nat :=
  let order_id := db.orderSeq
  let db1 : DB :=
    { db with orders := db.orders ++ [⟨order_id, total_amount, order_date⟩],
              orderSeq := order_id + 1 }
  let db2 := selected_dishes.foldl (fun d dish =>
    { d with order_details :=
               d.order_details ++ [⟨d.detailSeq, order_id, dish.id, 1⟩],
             detailSeq := d.detailSeq + 1 }) db1
  (db2, order_id)

/-- The `LEFT JOIN dishes d ON od.dish_id = d.id` step: resolve a dish id
against the `dishes` table (`id` is the primary key, so `find?` over the
rowid scan). -/
def lookupDish (db : DB) (did : Nat) : Option DishRow :=
  db.dishes.find? (fun r => r.id = did)

/-- The non-NULL `d.name` values feeding `GROUP_CONCAT` for one order group:
the order's detail rows in rowid order, each resolved through the dish
table, unresolved (NULL) names skipped. -/
def namesFor (db : DB) (oid : Nat) : List String :=
  (db.order_details.filter (fun od => od.order_id = oid)).filterMap
    (fun od => (lookupDish db od.dish_id).map (fun r => r.name))

/-- SQLite `GROUP_CONCAT(·, ', ')` over the non-NULL values of a group:
`NULL` when there is no non-NULL value, otherwise the `', '`-join. -/
def group_concat (l : List String) : Option String :=
  match l with
  | [] => none
  | _ => some (String.intercalate ", " l)

/-- One result row of `get_order_history`:
`(o.id, o.total_amount, o.order_date, dish_names)`. -/
structure HistEntry where
  id : Nat
  total_amount : ℚ
  order_date : String
  dish_names : Option String
deriving DecidableEq

/-- The grouped row produced for one `orders` row by the history query. -/
def entryFor (db : DB) (o : OrderRow) : HistEntry :=
  ⟨o.id, o.total_amount, o.order_date, group_concat (namesFor db o.id)⟩

/-- The `ORDER BY o.order_date DESC` comparison on grouped rows. -/
def histLe (a b : HistEntry) : Bool :=
  b.order_date ≤ a.order_date

/-- `DatabaseManager.get_order_history`: group the outer join by `o.id`
(one group per `orders` row, built in rowid scan order), then sort the
grouped rows by `order_date` descending. -/
def get_order_history (db : DB) : List HistEntry :=
  (db.orders.map (entryFor db)).mergeSort histLe

/-- `DatabaseManager.add_new_dish`: a single insert, returns `lastrowid`. -/
def add_new_dish (db : DB) (name : String) (price : ℚ) (image_path : String) :
    DB × Nat :=
  insertDishRow db name price image_path

/-- `DatabaseManager.delete_dish`: `DELETE FROM dishes WHERE id = ?`;
touches no other table and no sequence counter. -/
def delete_dish (db : DB) (dish_id : Nat) : DB :=
  { db with dishes := db.dishes.filter (fun d => d.id ≠ dish_id) }

/-- `MainWindow.update_total`: recompute `self.selected_dishes` as the
filter of the loaded dishes on the `selected` flag, and the displayed total
as the sum of their prices. -/
def update_total (dishes : List Dish) : List Dish × ℚ :=
  let selected_dishes := dishes.filter (fun d => d.selected)
  (selected_dishes, (selected_dishes.map (fun d => d.price)).sum)

/-- `DishWidget.on_checkbox_changed` on the widget at position `i`: set
that dish's `selected` flag. -/
def setSelected : List Dish → Nat → Bool → List Dish
  | [], _, _ => []
  | d :: ds, 0, b => { d with selected := b } :: ds
  | d :: ds, Nat.succ i, b => d :: setSelected ds i b

/-- Outcome of `MainWindow.confirm_order`: the blocking
`QMessageBox.warning` on an empty selection, or the success dialog carrying
the saved order's id. -/
inductive ConfirmOutcome where
  | validationWarning
  | saved (order_id : Nat)
deriving DecidableEq

/-- Post-state of `MainWindow.confirm_order`: the store, the loaded dish
list (selection flags reset on success), and the reported outcome. -/
structure ConfirmResult where
  db : DB
  dishes : List Dish
  outcome : ConfirmOutcome
deriving DecidableEq

/-- `MainWindow.confirm_order`: `self.selected_dishes` is the value
maintained by `update_total` (which runs after every toggle); an empty
selection warns and returns before touching the store, otherwise the order
is saved with the recomputed price sum and every `selected` flag is reset. -/
def confirm_order (db : DB) (dishes : List Dish) (now : String) :
    ConfirmResult :=
  let selected_dishes := (update_total dishes).1
  if selected_dishes = [] then ⟨db, dishes, .validationWarning⟩
  else
    let total := (selected_dishes.map (fun d => d.price)).sum
    let r := save_order db selected_dishes total now
    ⟨r.1, dishes.map (fun d => { d with selected := false }), .saved r.2⟩

/-- A raw value handed to `csv.writer`: Python converts non-string values
with `str()` and writes `None` as the empty field. -/
inductive Cell where
  | int (n : Nat)
  | real (q : ℚ)
  | text (s : String)
  | null
deriving DecidableEq

/-- The header row written by `OrderHistoryDialog.export_to_csv`. -/
def csvHeaderRow : List Cell :=
  [.text "ID", .text "Сумма", .text "Дата", .text "Блюда"]

/-- One data row of the CSV export: the raw history tuple, passed to
`writer.writerows` without any reformatting of the amount. -/
def csvRowOf (e : HistEntry) : List Cell :=
  [.int e.id, .real e.total_amount, .text e.order_date,
   match e.dish_names with
   | some s => .text s
   | none => .null]

/-- `OrderHistoryDialog.export_to_csv`: the header row followed by the raw
history rows. -/
def export_to_csv (db : DB) : List (List Cell) :=
  csvHeaderRow :: (get_order_history db).map csvRowOf

/-- Store states reachable through SQLite: primary-key ids are assigned by
the strictly increasing sequence counters, so dish rows carry strictly
increasing ids below the counter and every order id and order-detail
foreign key is below the orders counter. -/
def WF (db : DB) : Prop :=
  db.dishes.Pairwise (fun a b => a.id < b.id) ∧
  (∀ d ∈ db.dishes, d.id < db.dishSeq) ∧
  (∀ o ∈ db.orders, o.id < db.orderSeq) ∧
  (∀ od ∈ db.order_details, od.order_id < db.orderSeq)

instance (db : DB) : Decidable (WF db) := by
  unfold WF
  infer_instance

/-- The freshly seeded store. -/
def initialStore : DB := init_database none

/-- A concrete store with one saved order (the first two seeded dishes). -/
def demoStore : DB :=
  (save_order initialStore ((get_all_dishes initialStore).take 2)
    28.49 "2024-05-05T12:00:00").1

/-! ### Characterisation of `save_order` -/

theorem save_lines_foldl (order_id : Nat) (ds : List Dish) :
    ∀ db : DB,
      ds.foldl (fun d dish =>
        { d with order_details :=
                   d.order_details ++ [⟨d.detailSeq, order_id, dish.id, 1⟩],
                 detailSeq := d.detailSeq + 1 }) db =
      { db with order_details := db.order_details ++
                  (ds.enumFrom db.detailSeq).map
                    (fun p => ⟨p.1, order_id, p.2.id, 1⟩),
                detailSeq := db.detailSeq + ds.length } := by
  induction ds with
  | nil => intro db; simp
  | cons dish ds ih =>
    intro db
    rw [List.foldl_cons, ih]
    simp [List.enumFrom_cons, List.append_assoc, DB.mk.injEq]
    omega

theorem save_order_spec (db : DB) (ds : List Dish) (t : ℚ) (now : String) :
    save_order db ds t now =
      ({ db with orders := db.orders ++ [⟨db.orderSeq, t, now⟩],
                 order_details := db.order_details ++
                   (ds.enumFrom db.detailSeq).map
                     (fun p => ⟨p.1, db.orderSeq, p.2.id, 1⟩),
                 orderSeq := db.orderSeq + 1,
                 detailSeq := db.detailSeq + ds.length }, db.orderSeq) := by
  dsimp only [save_order]
  rw [save_lines_foldl]

/-! ### Claim theorems -/

/-- Claim C1: for every loaded dish set (in particular after any
selection-toggle event), the aggregator returns the filter of the dishes on
`selected = true` together with the sum of exactly those dishes' prices. -/
theorem C1_selection_aggregate (dishes : List Dish) (i : Nat) (b : Bool) :
    (update_total dishes).1 = dishes.filter (fun d => d.selected)
  ∧ (update_total dishes).2 =
      ((dishes.filter (fun d => d.selected)).map (fun d => d.price)).sum
  ∧ (update_total (setSelected dishes i b)).1 =
      (setSelected dishes i b).filter (fun d => d.selected)
  ∧ (update_total (setSelected dishes i b)).2 =
      (((setSelected dishes i b).filter (fun d => d.selected)).map
        (fun d => d.price)).sum :=
  ⟨rfl, rfl, rfl, rfl⟩

/-- Claim C2: for every dish sequence (the empty one included) and every
supplied total, `save_order` appends exactly one order row carrying the
supplied total and timestamp, appends one detail row per input dish with
quantity 1 referencing the new order, returns the new order's id, and never
rejects the call (it is a total function, with no validation of the dish
sequence or of the total). -/
theorem C2_save_order_effect (db : DB) (ds : List Dish) (t : ℚ) (now : String) :
    (save_order db ds t now).2 = db.orderSeq
  ∧ (save_order db ds t now).1.orders = db.orders ++ [⟨db.orderSeq, t, now⟩]
  ∧ (save_order db ds t now).1.order_details =
      db.order_details ++ (ds.enumFrom db.detailSeq).map
        (fun p => ⟨p.1, db.orderSeq, p.2.id, 1⟩)
  ∧ ((save_order db ds t now).1.order_details.drop db.order_details.length).map
      (fun od => (od.order_id, od.dish_id, od.quantity)) =
      ds.map (fun d => (db.orderSeq, d.id, 1))
  ∧ (save_order db ds t now).1.dishes = db.dishes := by
  rw [save_order_spec]
  refine ⟨rfl, rfl, rfl, ?_, rfl⟩
  rw [List.drop_left, List.map_map]
  show (ds.enumFrom db.detailSeq).map
    ((fun d : Dish => (db.orderSeq, d.id, 1)) ∘ Prod.snd) = _
  rw [← List.map_map, List.enumFrom_map_snd]

/-- Claim C5: submitting the order while zero dishes are selected leaves
the store unchanged (no order row, no detail row) and reports the
user-facing validation warning instead of touching the store. -/
theorem C5_empty_selection_rejected (db : DB) (dishes : List Dish)
    (now : String) (h : dishes.filter (fun d => d.selected) = []) :
    confirm_order db dishes now =
      ⟨db, dishes, ConfirmOutcome.validationWarning⟩ := by
  simp [confirm_order, update_total, h]

theorem C5_empty_selection_rejected_witness :
    (get_all_dishes initialStore).filter (fun d => d.selected) = []
  ∧ confirm_order initialStore (get_all_dishes initialStore)
      "2024-05-05T12:00:00" =
      ⟨initialStore, get_all_dishes initialStore,
        ConfirmOutcome.validationWarning⟩ :=
  ⟨by decide, C5_empty_selection_rejected initialStore
    (get_all_dishes initialStore) "2024-05-05T12:00:00" (by decide)⟩

/-- Claim C7: `delete_dish` removes exactly the dish rows carrying the
given id, leaves the orders and order-details tables (and hence existing
order lines referencing the dish) untouched, and is silently a no-op when
no dish has that id. -/
theorem C7_delete_dish_frame (db : DB) (dish_id : Nat) :
    (delete_dish db dish_id).dishes =
      db.dishes.filter (fun d => d.id ≠ dish_id)
  ∧ (delete_dish db dish_id).orders = db.orders
  ∧ (delete_dish db dish_id).order_details = db.order_details
  ∧ ((∀ d ∈ db.dishes, d.id ≠ dish_id) → delete_dish db dish_id = db) := by
  refine ⟨rfl, rfl, rfl, fun h => ?_⟩
  have hf : db.dishes.filter (fun d => d.id ≠ dish_id) = db.dishes :=
    List.filter_eq_self.mpr (fun d hd => by simpa using h d hd)
  show ({ db with dishes := db.dishes.filter (fun d => d.id ≠ dish_id) } : DB)
    = db
  rw [hf]

theorem C7_delete_dish_frame_witness :
    (∀ d ∈ initialStore.dishes, d.id ≠ 99)
  ∧ delete_dish initialStore 99 = initialStore :=
  ⟨by decide, (C7_delete_dish_frame initialStore 99).2.2.2 (by decide)⟩

/-! ### Sorting facts for the history query -/

theorem histLe_trans : ∀ a b c : HistEntry, histLe a b → histLe b c → histLe a c := by
  intro a b c hab hbc
  simp only [histLe, decide_eq_true_eq] at hab hbc ⊢
  exact le_trans hbc hab

theorem histLe_total : ∀ a b : HistEntry, histLe a b || histLe b a := by
  intro a b
  simp only [histLe, Bool.or_eq_true, decide_eq_true_eq]
  exact le_total b.order_date a.order_date

theorem history_pairwise (db : DB) :
    (get_order_history db).Pairwise (fun a b => b.order_date ≤ a.order_date) := by
  have h := List.sorted_mergeSort histLe_trans histLe_total (db.orders.map (entryFor db))
  exact h.imp (fun hab => by simpa [histLe] using hab)

/-- Claim C4: the history has one entry per order row, is sorted newest
date first, each entry is the order's id, total and date together with the
comma-joined resolved dish names of its lines, and an order with no lines
still appears, with a NULL (absent) joined-name field. -/
theorem C4_history_shape (db : DB) :
    (get_order_history db).length = db.orders.length
  ∧ (get_order_history db).Perm (db.orders.map (entryFor db))
  ∧ (get_order_history db).Pairwise (fun a b => b.order_date ≤ a.order_date)
  ∧ (∀ o ∈ db.orders, entryFor db o =
      ⟨o.id, o.total_amount, o.order_date, group_concat (namesFor db o.id)⟩)
  ∧ (∀ o ∈ db.orders,
      db.order_details.filter (fun od => od.order_id = o.id) = [] →
        (entryFor db o).dish_names = none) := by
  refine ⟨by simp [get_order_history], List.mergeSort_perm _ histLe,
    history_pairwise db, fun o _ => rfl, fun o _ h => ?_⟩
  simp [entryFor, namesFor, h, group_concat]

/-- An order saved with an empty dish list, for exercising the
no-lines branch of the history query. -/
def demoStore2 : DB := (save_order initialStore [] 0 "2024-06-01T00:00:00").1

theorem C4_history_shape_witness :
    (get_order_history demoStore2).length = demoStore2.orders.length
  ∧ ((⟨1, 0, "2024-06-01T00:00:00"⟩ : OrderRow) ∈ demoStore2.orders)
  ∧ entryFor demoStore2 ⟨1, 0, "2024-06-01T00:00:00"⟩ =
      ⟨1, 0, "2024-06-01T00:00:00", group_concat (namesFor demoStore2 1)⟩
  ∧ demoStore2.order_details.filter (fun od => od.order_id = 1) = []
  ∧ (entryFor demoStore2 ⟨1, 0, "2024-06-01T00:00:00"⟩).dish_names = none :=
  ⟨(C4_history_shape demoStore2).1, by decide,
   (C4_history_shape demoStore2).2.2.2.1 ⟨1, 0, "2024-06-01T00:00:00"⟩
     (by decide),
   by decide,
   (C4_history_shape demoStore2).2.2.2.2 ⟨1, 0, "2024-06-01T00:00:00"⟩
     (by decide) (by decide)⟩

/-! ### Seeding facts -/

theorem seedSamples_dishes_length (db : DB) :
    (seedSamples db).dishes.length = db.dishes.length + 7 := by
  simp [seedSamples, sample_dishes, insertDishRow]

theorem init_database_dishes_ne_nil (store : Option DB) :
    (init_database store).dishes ≠ [] := by
  rw [init_database]
  by_cases h : (store.getD emptyDB).dishes.isEmpty
  · rw [if_pos h]
    intro hnil
    have hlen := seedSamples_dishes_length (store.getD emptyDB)
    rw [hnil] at hlen
    simp at hlen
  · rw [if_neg h]
    simpa [List.isEmpty_iff] using h

/-- Claim C9: initialization is idempotent: the schema step is `CREATE
TABLE IF NOT EXISTS`, the seed step fires only on an empty dishes table,
so initializing an already-initialized store with a non-empty dishes table
changes nothing, and a second initialization never changes the result of a
first one (the first always leaves a non-empty dishes table). -/
theorem C9_init_idempotent :
    (∀ db : DB, db.dishes ≠ [] → init_database (some db) = db)
  ∧ ∀ store : Option DB,
      init_database (some (init_database store)) = init_database store := by
  constructor
  · intro db h
    simp [init_database, List.isEmpty_iff, h]
  · intro store
    have h := init_database_dishes_ne_nil store
    rw [init_database]
    simp only [Option.getD_some]
    rw [if_neg (by simpa [List.isEmpty_iff] using h)]

theorem C9_init_idempotent_witness :
    initialStore.dishes ≠ []
  ∧ init_database (some initialStore) = initialStore :=
  ⟨by decide, C9_init_idempotent.1 initialStore (by decide)⟩

/-- Claim C8: `get_all_dishes` lists the catalog in insertion order, which
on a well-formed store is ascending id order; adding a dish makes
`get_all_dishes` include a dish with that name and price (under the new
id, unselected); deleting an id removes every dish with that id from the
listing. -/
theorem C8_catalog_listing (db : DB) (name : String) (price : ℚ)
    (path : String) (did : Nat) (hwf : WF db) :
    (get_all_dishes db).Pairwise (fun a b => a.id < b.id)
  ∧ (add_new_dish db name price path).2 = db.dishSeq
  ∧ ({ id := db.dishSeq, name := name, price := price, image_path := path,
       selected := false } : Dish) ∈
      get_all_dishes (add_new_dish db name price path).1
  ∧ ∀ d ∈ get_all_dishes (delete_dish db did), d.id ≠ did := by
  refine ⟨?_, rfl, ?_, ?_⟩
  · rw [get_all_dishes, List.pairwise_map]
    exact hwf.1
  · simp [get_all_dishes, add_new_dish, insertDishRow]
  · intro d hd
    simp only [get_all_dishes, delete_dish, List.mem_map, List.mem_filter] at hd
    obtain ⟨r, ⟨_, hrne⟩, rfl⟩ := hd
    simpa using hrne

/-! ### Dish-id resolution facts -/

theorem find_id_unique :
    ∀ l : List DishRow, l.Pairwise (fun a b => a.id < b.id) →
      ∀ r ∈ l, l.find? (fun x => x.id = r.id) = some r := by
  intro l hp
  induction l with
  | nil => intro r hr; cases hr
  | cons a tl ih =>
    intro r hr
    rcases List.mem_cons.mp hr with rfl | hrtl
    · exact List.find?_cons_of_pos tl (by simp)
    · have ha : a.id < r.id := (List.pairwise_cons.mp hp).1 r hrtl
      rw [List.find?_cons_of_neg tl (by simp; omega)]
      exact ih (List.pairwise_cons.mp hp).2 r hrtl

theorem filterMap_lookup_names (db : DB)
    (hp : db.dishes.Pairwise (fun a b => a.id < b.id)) :
    ∀ ds : List Dish,
      (∀ d ∈ ds, ∃ r ∈ db.dishes, r.id = d.id ∧ r.name = d.name) →
      ds.filterMap (fun d => (lookupDish db d.id).map (fun r => r.name)) =
        ds.map (fun d => d.name) := by
  intro ds
  induction ds with
  | nil => intro _; rfl
  | cons d ds ih =>
    intro h
    obtain ⟨r, hrmem, hid, hname⟩ := h d (List.mem_cons_self d ds)
    have hl : lookupDish db d.id = some r := by
      rw [← hid, lookupDish]
      exact find_id_unique db.dishes hp r hrmem
    have hfd : (lookupDish db d.id).map (fun r => r.name) = some d.name := by
      rw [hl, Option.map_some', hname]
    have hcons : List.filterMap
        (fun d : Dish => (lookupDish db d.id).map (fun r => r.name))
        (d :: ds) =
        d.name :: List.filterMap
          (fun d : Dish => (lookupDish db d.id).map (fun r => r.name)) ds :=
      List.filterMap_cons_some hfd
    rw [hcons, List.map_cons]
    exact congrArg (List.cons d.name)
      (ih (fun x hx => h x (List.mem_cons_of_mem d hx)))

theorem head_mergeSort_strict_max {l : List HistEntry} {e : HistEntry}
    (he : e ∈ l)
    (hmax : ∀ x ∈ l, x = e ∨ x.order_date < e.order_date) :
    (l.mergeSort histLe).head? = some e := by
  have hsorted := List.sorted_mergeSort histLe_trans histLe_total l
  have hes : e ∈ l.mergeSort histLe := List.mem_mergeSort.mpr he
  cases hms : l.mergeSort histLe with
  | nil => rw [hms] at hes; cases hes
  | cons h tl =>
    rw [hms] at hes hsorted
    rcases List.mem_cons.mp hes with rfl | hetl
    · rfl
    · have hh : h ∈ l := by
        have hhs : h ∈ l.mergeSort histLe := by
          rw [hms]; exact List.mem_cons_self h tl
        exact List.mem_mergeSort.mp hhs
      rcases hmax h hh with rfl | hlt
      · rfl
      · have hle : histLe h e := (List.pairwise_cons.mp hsorted).1 e hetl
        have hed : e.order_date ≤ h.order_date := by simpa [histLe] using hle
        exact absurd hlt (not_lt.mpr hed)

/-- Claim C3: saving a non-empty order and immediately reading the history
yields, as the newest-first entry, the new order's id, the submitted total,
the submission timestamp, and the joined names of the submitted dishes.
`hfresh` states that the submission timestamp is later (as an ISO-8601
string) than every stored order date, which is what an immediate
`datetime.now()` call guarantees; `hres` states that each submitted dish is
a catalog row, which is how the UI builds the selection. -/
theorem C3_save_then_history_head (db : DB) (ds : List Dish) (t : ℚ)
    (now : String) (hwf : WF db) (hne : ds ≠ [])
    (hfresh : ∀ o ∈ db.orders, o.order_date < now)
    (hres : ∀ d ∈ ds, ∃ r ∈ db.dishes, r.id = d.id ∧ r.name = d.name) :
    (get_order_history (save_order db ds t now).1).head? =
      some ⟨db.orderSeq, t, now,
        some (String.intercalate ", " (ds.map (fun d => d.name)))⟩ := by
  obtain ⟨hpw, hdseq, hoid, hodid⟩ := hwf
  have hdb2 : (save_order db ds t now).1 =
      { db with orders := db.orders ++ [⟨db.orderSeq, t, now⟩],
                order_details := db.order_details ++
                  (ds.enumFrom db.detailSeq).map
                    (fun p => ⟨p.1, db.orderSeq, p.2.id, 1⟩),
                orderSeq := db.orderSeq + 1,
                detailSeq := db.detailSeq + ds.length } := by
    rw [save_order_spec]
  rw [hdb2]
  set db2 : DB :=
      { db with orders := db.orders ++ [⟨db.orderSeq, t, now⟩],
                order_details := db.order_details ++
                  (ds.enumFrom db.detailSeq).map
                    (fun p => ⟨p.1, db.orderSeq, p.2.id, 1⟩),
                orderSeq := db.orderSeq + 1,
                detailSeq := db.detailSeq + ds.length } with hdb2def
  have hdishes2 : db2.dishes = db.dishes := rfl
  have horders2 : db2.orders = db.orders ++ [⟨db.orderSeq, t, now⟩] := rfl
  have hfilter_old :
      db.order_details.filter (fun od => od.order_id = db.orderSeq) = [] :=
    List.filter_eq_nil_iff.mpr (fun od hod => by
      simp only [decide_eq_true_eq]
      exact Nat.ne_of_lt (hodid od hod))
  have hfilter_new :
      ((ds.enumFrom db.detailSeq).map
        (fun p => (⟨p.1, db.orderSeq, p.2.id, 1⟩ : OrderDetailRow))).filter
          (fun od => od.order_id = db.orderSeq) =
      (ds.enumFrom db.detailSeq).map
        (fun p => ⟨p.1, db.orderSeq, p.2.id, 1⟩) :=
    List.filter_eq_self.mpr (fun od hod => by
      obtain ⟨p, _, rfl⟩ := List.mem_map.mp hod
      simp)
  have hnames : namesFor db2 db.orderSeq = ds.map (fun d => d.name) := by
    show (db2.order_details.filter
        (fun od => od.order_id = db.orderSeq)).filterMap
        (fun od => (lookupDish db2 od.dish_id).map (fun r => r.name)) = _
    rw [show db2.order_details = db.order_details ++
          (ds.enumFrom db.detailSeq).map
            (fun p => ⟨p.1, db.orderSeq, p.2.id, 1⟩) from rfl,
        List.filter_append, hfilter_old, hfilter_new, List.nil_append,
        List.filterMap_map]
    show (ds.enumFrom db.detailSeq).filterMap
        ((fun d : Dish => (lookupDish db2 d.id).map (fun r => r.name)) ∘
          Prod.snd) = _
    rw [← List.filterMap_map, List.enumFrom_map_snd]
    exact filterMap_lookup_names db2 (hdishes2 ▸ hpw) ds
      (fun d hd => hdishes2 ▸ hres d hd)
  have hjoin : group_concat (ds.map (fun d => d.name)) =
      some (String.intercalate ", " (ds.map (fun d => d.name))) := by
    cases hds : ds.map (fun d => d.name) with
    | nil => exact absurd (List.map_eq_nil_iff.mp hds) hne
    | cons a l => rfl
  have hnewentry : entryFor db2 ⟨db.orderSeq, t, now⟩ =
      ⟨db.orderSeq, t, now,
        some (String.intercalate ", " (ds.map (fun d => d.name)))⟩ := by
    show (⟨db.orderSeq, t, now,
      group_concat (namesFor db2 db.orderSeq)⟩ : HistEntry) = _
    rw [hnames, hjoin]
  have hmem : entryFor db2 ⟨db.orderSeq, t, now⟩ ∈
      db2.orders.map (entryFor db2) := by
    refine List.mem_map_of_mem _ ?_
    rw [horders2]
    exact List.mem_append_right _ (List.mem_singleton.mpr rfl)
  have hmax : ∀ x ∈ db2.orders.map (entryFor db2),
      x = entryFor db2 ⟨db.orderSeq, t, now⟩ ∨
        x.order_date < (entryFor db2 ⟨db.orderSeq, t, now⟩).order_date := by
    intro x hx
    obtain ⟨o, ho, rfl⟩ := List.mem_map.mp hx
    rw [horders2] at ho
    rcases List.mem_append.mp ho with ho | ho
    · right
      exact hfresh o ho
    · left
      rw [List.mem_singleton.mp ho]
  rw [get_order_history, head_mergeSort_strict_max hmem hmax, hnewentry]

theorem C3_save_then_history_head_witness :
    WF initialStore
  ∧ (get_all_dishes initialStore).take 2 ≠ []
  ∧ (∀ o ∈ initialStore.orders, o.order_date < "2024-05-05T12:00:00")
  ∧ (∀ d ∈ (get_all_dishes initialStore).take 2,
      ∃ r ∈ initialStore.dishes, r.id = d.id ∧ r.name = d.name)
  ∧ (get_order_history
      (save_order initialStore ((get_all_dishes initialStore).take 2)
        (12.99 + 15.50) "2024-05-05T12:00:00").1).head? =
      some ⟨initialStore.orderSeq, 12.99 + 15.50, "2024-05-05T12:00:00",
        some (String.intercalate ", "
          (((get_all_dishes initialStore).take 2).map (fun d => d.name)))⟩ :=
  ⟨by decide, by decide, by decide, by decide,
   C3_save_then_history_head initialStore
     ((get_all_dishes initialStore).take 2) (12.99 + 15.50)
     "2024-05-05T12:00:00" (by decide) (by decide) (by decide) (by decide)⟩

theorem C8_catalog_listing_witness :
    WF initialStore
  ∧ ((get_all_dishes initialStore).Pairwise (fun a b => a.id < b.id)
     ∧ (add_new_dish initialStore "X" 9.99 "images/x.jpg").2 =
         initialStore.dishSeq
     ∧ ({ id := initialStore.dishSeq, name := "X", price := 9.99,
          image_path := "images/x.jpg", selected := false } : Dish) ∈
         get_all_dishes (add_new_dish initialStore "X" 9.99 "images/x.jpg").1
     ∧ ∀ d ∈ get_all_dishes (delete_dish initialStore 1), d.id ≠ 1) :=
  ⟨by decide, C8_catalog_listing initialStore "X" 9.99 "images/x.jpg" 1
    (by decide)⟩

/-! ### History after a dish deletion -/

theorem find_filter_ne (x did : Nat) (hx : x ≠ did) :
    ∀ l : List DishRow,
      (l.filter (fun r => r.id ≠ did)).find? (fun r => r.id = x) =
        l.find? (fun r => r.id = x) := by
  intro l
  induction l with
  | nil => rfl
  | cons a tl ih =>
    by_cases ha : a.id = did
    · rw [List.filter_cons_of_neg (by simp [ha]),
          List.find?_cons_of_neg tl (by simp [ha]; omega)]
      exact ih
    · rw [List.filter_cons_of_pos (by simp [ha])]
      by_cases hax : a.id = x
      · rw [List.find?_cons_of_pos _ (by simp [hax]),
            List.find?_cons_of_pos tl (by simp [hax])]
      · rw [List.find?_cons_of_neg _ (by simp [hax]),
            List.find?_cons_of_neg tl (by simp [hax])]
        exact ih

theorem lookupDish_delete (db : DB) (did x : Nat) :
    lookupDish (delete_dish db did) x =
      if x = did then none else lookupDish db x := by
  by_cases h : x = did
  · rw [if_pos h, lookupDish]
    subst h
    apply List.find?_eq_none.mpr
    intro r hr
    have h2 := List.mem_filter.mp hr
    simpa using h2.2
  · rw [if_neg h, lookupDish, lookupDish]
    exact find_filter_ne x did h db.dishes

theorem filterMap_lookup_delete (db : DB) (did : Nat) :
    ∀ l : List OrderDetailRow,
      l.filterMap (fun od =>
        (lookupDish (delete_dish db did) od.dish_id).map (fun r => r.name)) =
      l.filterMap (fun od =>
        if od.dish_id = did then none
        else (lookupDish db od.dish_id).map (fun r => r.name)) := by
  intro l
  induction l with
  | nil => rfl
  | cons od tl ih =>
    rw [List.filterMap_cons, List.filterMap_cons, lookupDish_delete]
    by_cases h : od.dish_id = did
    · simp only [if_pos h, Option.map_none']
      exact ih
    · simp only [if_neg h]
      cases hmap : (lookupDish db od.dish_id).map (fun r => r.name) with
      | none => exact ih
      | some b => exact congrArg (List.cons b) ih

/-- Claim C10: after deleting a dish, the history still returns one entry
for every order, each referencing order keeps its id, total and date
unchanged, and the name aggregation merely skips the now-unresolvable
dish references instead of failing or dropping the order. -/
theorem C10_history_after_delete (db : DB) (did : Nat) :
    (get_order_history (delete_dish db did)).length = db.orders.length
  ∧ ∀ o ∈ db.orders,
      entryFor (delete_dish db did) o ∈
        get_order_history (delete_dish db did)
    ∧ (entryFor (delete_dish db did) o).id = o.id
    ∧ (entryFor (delete_dish db did) o).total_amount = o.total_amount
    ∧ (entryFor (delete_dish db did) o).order_date = o.order_date
    ∧ namesFor (delete_dish db did) o.id =
        (db.order_details.filter (fun od => od.order_id = o.id)).filterMap
          (fun od => if od.dish_id = did then none
                     else (lookupDish db od.dish_id).map (fun r => r.name)) := by
  constructor
  · simp [get_order_history, delete_dish]
  · intro o ho
    refine ⟨?_, rfl, rfl, rfl, ?_⟩
    · rw [get_order_history, List.mem_mergeSort]
      exact List.mem_map_of_mem _ ho
    · rw [namesFor]
      exact filterMap_lookup_delete db did
        (db.order_details.filter (fun od => od.order_id = o.id))

theorem demoStore_orders_eq :
    demoStore.orders = [⟨1, 28.49, "2024-05-05T12:00:00"⟩] := rfl

theorem C10_history_after_delete_witness :
    ((⟨1, 28.49, "2024-05-05T12:00:00"⟩ : OrderRow) ∈ demoStore.orders)
  ∧ namesFor (delete_dish demoStore 1) 1 =
      (demoStore.order_details.filter (fun od => od.order_id = 1)).filterMap
        (fun od => if od.dish_id = 1 then none
                   else (lookupDish demoStore od.dish_id).map
                     (fun r => r.name)) :=
  ⟨by rw [demoStore_orders_eq]; exact List.mem_singleton.mpr rfl,
   ((C10_history_after_delete demoStore 1).2
     ⟨1, 28.49, "2024-05-05T12:00:00"⟩
     (by rw [demoStore_orders_eq]; exact List.mem_singleton.mpr rfl)).2.2.2.2⟩

/-! ### CSV export -/

/-- Claim C6 as stated is false: the header row the code writes is the
localized `ID,Сумма,Дата,Блюда`, not `ID,Amount,Date,Dishes` (shown here on
the freshly seeded store, whose export is exactly the header row). -/
theorem C6_csv_counterexample :
    (export_to_csv initialStore).head? ≠
      some [Cell.text "ID", Cell.text "Amount", Cell.text "Date",
            Cell.text "Dishes"] := by
  decide

/-- Claim C6 amended: the CSV export writes the localized header
`ID,Сумма,Дата,Блюда` and then one row per history entry carrying the
entry's raw values (the amount is passed through unformatted — it is not
reprinted with two fraction digits — and carries no currency symbol; an
absent joined-name field is written as the NULL/empty field); for an empty
history the file is exactly the header row. -/
theorem C6_csv_export (db : DB) :
    export_to_csv db = csvHeaderRow :: (get_order_history db).map csvRowOf
  ∧ csvHeaderRow =
      [Cell.text "ID", Cell.text "Сумма", Cell.text "Дата", Cell.text "Блюда"]
  ∧ (∀ e : HistEntry, csvRowOf e =
      [Cell.int e.id, Cell.real e.total_amount, Cell.text e.order_date,
        match e.dish_names with
        | some s => Cell.text s
        | none => Cell.null])
  ∧ (get_order_history db = [] → export_to_csv db = [csvHeaderRow]) := by
  refine ⟨rfl, rfl, fun e => rfl, fun h => ?_⟩
  rw [export_to_csv, h]
  rfl

theorem C6_csv_export_witness :
    get_order_history initialStore = []
  ∧ export_to_csv initialStore = [csvHeaderRow] :=
  ⟨by rw [get_order_history, show initialStore.orders = [] from rfl,
        List.map_nil, List.mergeSort_nil],
   (C6_csv_export initialStore).2.2.2
     (by rw [get_order_history, show initialStore.orders = [] from rfl,
          List.map_nil, List.mergeSort_nil])⟩

end Resto
